import Mathlib

/-!
Verification development for the `terraform-provider-vaultprov` repository:
a shallow embedding of the Vault KV-v2 path-resolution layer
(package `vault` path helpers), the secret lifecycle layer
(`internal/vault/vault_api.go`) and the keypair resource orchestrator
(`internal/provider/resource_keypair.go`).

Strings are embedded as `List Char` so that the Go byte-level string
functions (`strings.TrimPrefix`, `strings.TrimSuffix`, `strings.SplitN`,
`path.Join`, `path.Clean`, ...) can be translated structurally.
-/

/-- Embedded Go string: a list of characters. -/
abbrev Str := List Char

/-- Conversion from a Lean string literal to the embedded string type. -/
def strOf (s : String) : Str := s.data

/-- The path separator character. -/
def slashChar : Char := '/'

/-- Go `strings.TrimPrefix(s, pre)`: drops `pre` from the front of `s`
when it is a prefix, otherwise returns `s` unchanged. -/
def trimPre (s pre : Str) : Str :=
  if pre <+: s then s.drop pre.length else s

/-- Go `strings.TrimSuffix(s, suf)`: drops `suf` from the end of `s`
when it is a suffix, otherwise returns `s` unchanged. -/
def trimSuf (s suf : Str) : Str :=
  if suf <:+ s then s.take (s.length - suf.length) else s

/-- Go `strings.SplitN(s, "/", 2)`, restricted to the slash separator:
`none` when `s` contains no slash (Go returns the one-element slice
`[s]`, so the callers break out of their loop), otherwise
`some (before, after)` around the first slash. -/
def splitFirstSlash : Str → Option (Str × Str)
  | [] => none
  | c :: rest =>
    if c = slashChar then some ([], rest)
    else
      match splitFirstSlash rest with
      | none => none
      | some (pre, post) => some (c :: pre, post)

/-- Whitespace recognizer used by Go `strings.TrimSpace`
(`unicode.IsSpace`), modelled for the Latin-1 range: space, tab,
newline, vertical tab, form feed, carriage return, NEL and NBSP. -/
def isGoSpace (c : Char) : Bool :=
  c == ' ' || c == '\t' || c == '\n' || c == Char.ofNat 11 ||
  c == Char.ofNat 12 || c == '\r' || c == Char.ofNat 133 || c == Char.ofNat 160

/-- Go `strings.TrimSpace`. -/
def goTrimSpace (s : Str) : Str :=
  ((s.dropWhile isGoSpace).reverse.dropWhile isGoSpace).reverse

/-- Function `ensureNoLeadingSlash` from the source: trims space, then strips
every leading slash. -/
def ensureNoLeadingSlash (s : Str) : Str :=
  let s := goTrimSpace s
  if s = [] then [] else s.dropWhile (· == slashChar)

/-- Function `ensureNoTrailingSlash` from the source: trims space, then strips
every trailing slash. -/
def ensureNoTrailingSlash (s : Str) : Str :=
  let s := goTrimSpace s
  if s = [] then [] else (s.reverse.dropWhile (· == slashChar)).reverse

/-- Function `sanitizePath` from the source: removes leading and trailing
slashes (and surrounding whitespace) from a path. -/
def sanitizePath (s : Str) : Str :=
  ensureNoTrailingSlash (ensureNoLeadingSlash s)

/-- Splits a string into its slash-separated fields, keeping empty
fields, as Go `strings.Split(s, "/")` does on a non-empty string. -/
def splitAllSlash : Str → List Str
  | [] => [[]]
  | c :: rest =>
    if c = slashChar then [] :: splitAllSlash rest
    else
      match splitAllSlash rest with
      | [] => [[c]]
      | seg :: segs => (c :: seg) :: segs

/-- One step of the segment stack used by Go `path.Clean`: `seg` is the
next path segment, `stk` the stack of kept segments in reverse order.
Empty and `.` segments are dropped; `..` pops a non-`..` top, is kept
when the path is relative and nothing can be popped, and is dropped at
the root of an absolute path. -/
def cleanStep (rooted : Bool) (stk : List Str) (seg : Str) : List Str :=
  if seg = [] ∨ seg = strOf "." then stk
  else if seg = strOf ".." then
    match stk with
    | [] => if rooted then [] else [strOf ".."]
    | top :: rest => if top = strOf ".." then seg :: stk else rest
  else seg :: stk

/-- Go `path.Clean`, as the standard segment-stack algorithm: split on
slashes, drop empty and `.` segments, resolve `..` against the stack,
and reassemble (keeping a leading slash for rooted paths; an empty
result becomes `.`, an empty rooted result becomes `/`). -/
def pathClean (p : Str) : Str :=
  if p = [] then strOf "."
  else
    let rooted : Bool := p.head? = some slashChar
    let stk := ((splitAllSlash p).foldl (cleanStep rooted) []).reverse
    let out := (if rooted then [slashChar] else []) ++ List.intercalate [slashChar] stk
    if out = [] then strOf "." else out

/-- The separator-insertion pass of Go `path.Join`: elements are
concatenated with a slash between them, skipping leading empty
elements (a slash is still emitted before a later empty element). -/
def pathJoinRaw (elems : List Str) : Str :=
  elems.foldl (fun buf e => if buf = [] then e else buf ++ slashChar :: e) []

/-- Go `path.Join`: empty when every element is empty, otherwise the
cleaned concatenation. -/
def pathJoin (elems : List Str) : Str :=
  let raw := pathJoinRaw elems
  if raw = [] then [] else pathClean raw

/-- The namespace-stripping loop of `addPrefixToKVPath`, translated
from the source with an explicit fuel argument standing for the Go
loop (the loop shortens `m` on every iteration, so any fuel above
`m.length` is enough; callers pass `m.length + 1`). `p` is the secret
path, `m` the candidate mount path, `tp` the trimmed remainder. -/
def addPrefixLoopF : Nat → Str → Str → Str → Str × Str
  | 0, _, m, tp => (m, tp)
  | fuel + 1, p, m, tp =>
    if tp ≠ p then (m, tp)
    else
      match splitFirstSlash m with
      | none => (m, tp)
      | some (_, post) =>
        if post = [] then (m, tp)
        else
          let m2 := trimSuf post [slashChar]
          addPrefixLoopF fuel p m2 (trimPre tp m2)

/-- Function `addPrefixToKVPath(p, mountPath, apiSeg)` from the source: rewrites
the logical path `p` into its versioned KV-v2 sub-path by inserting the
API segment (`data`, `metadata` or `delete`) after the mount path,
iteratively stripping leading mount-path segments when the mount path
is not a literal prefix of `p` (the namespace case). -/
def addPrefixToKVPath (p mountPath apiSeg : Str) : Str :=
  if p = mountPath ∨ p = trimSuf mountPath (strOf "/") then
    pathJoin [mountPath, apiSeg]
  else
    let pr := addPrefixLoopF (mountPath.length + 1) p mountPath (trimPre p mountPath)
    pathJoin [pr.1, apiSeg, pr.2]

/-- Modelled from the spec wording for the namespace case of path
rewriting: iteratively strip leading path segments of the mount path
until the remainder is found as a prefix of the literal path, or no
segments remain (fuel as in `addPrefixLoopF`). -/
def stripMountSpecF : Nat → Str → Str → Str
  | 0, _, m => m
  | fuel + 1, p, m =>
    if m <+: p then m
    else
      match splitFirstSlash m with
      | none => m
      | some (_, post) =>
        if post = [] then m else stripMountSpecF fuel p (trimSuf post [slashChar])

/-- Modelled from the spec wording: the mount-path remainder reached by
the stripping iteration. -/
def stripMountSpec (p m : Str) : Str := stripMountSpecF (m.length + 1) p m

/-- Modelled from the spec wording of the path-rewrite step: `m` joined
with the API segment and no trailing remainder when `p` equals the
mount path with or without its trailing slash; otherwise the path with
the API segment inserted immediately after the (namespace-stripped)
mount path. -/
def addPrefixToKVPathSpec (p mountPath apiSeg : Str) : Str :=
  if p = mountPath ∨ p = trimSuf mountPath (strOf "/") then
    pathJoin [mountPath, apiSeg]
  else
    let m := stripMountSpec p mountPath
    pathJoin [m, apiSeg, trimPre p m]

/-- Go `strconv.Atoi`: an optional sign followed by at least one
decimal digit (the 64-bit range check is not modelled; the version
keys concerned are small). -/
def goAtoi (s : Str) : Option Int :=
  match s with
  | [] => none
  | c :: rest =>
    let core := if c = '-' ∨ c = '+' then rest else s
    if core = [] ∨ ¬ core.all (fun d => d.isDigit) then none
    else
      let n : Nat := core.foldl (fun acc d => acc * 10 + (d.toNat - 48)) 0
      some (if c = '-' then -(n : Int) else (n : Int))

/-- Digit-extraction recursion for `natToDecStr` (the fuel bounds the
number of digits; any fuel above the value itself is enough). -/
def natToDecStrAux : Nat → Nat → Str
  | 0, _ => []
  | fuel + 1, n =>
    if n < 10 then [Char.ofNat (48 + n)]
    else natToDecStrAux fuel (n / 10) ++ [Char.ofNat (48 + n % 10)]

/-- Go `strconv.Itoa` on a natural number. -/
def natToDecStr (n : Nat) : Str := natToDecStrAux (n + 1) n

/-- ASCII case folding of one character (lower-casing). -/
def asciiFoldChar (c : Char) : Char :=
  if 'A' ≤ c ∧ c ≤ 'Z' then Char.ofNat (c.toNat + 32) else c

/-- ASCII case folding of a string, used for the case-insensitive field
matching of the mapstructure decoder. -/
def asciiFold (s : Str) : Str := s.map asciiFoldChar

/-- The standard base64 alphabet. -/
def b64Alphabet : Str :=
  strOf "ABCDEFGHIJKLMNOPQRSTUVWXYZabcdefghijklmnopqrstuvwxyz0123456789+/"

/-- Character of the standard base64 alphabet at a six-bit index. -/
def b64Char (n : Nat) : Char := b64Alphabet.getD n '?'

/-- Go `base64.StdEncoding.EncodeToString` on a byte slice. -/
def base64StdEncode : List Nat → Str
  | [] => []
  | [a] => [b64Char (a / 4), b64Char (a % 4 * 16), '=', '=']
  | [a, b] => [b64Char (a / 4), b64Char (a % 4 * 16 + b / 16), b64Char (b % 16 * 4), '=']
  | a :: b :: c :: rest =>
    b64Char (a / 4) :: b64Char (a % 4 * 16 + b / 16) ::
    b64Char (b % 16 * 4 + c / 64) :: b64Char (c % 64) :: base64StdEncode rest

/-- A dynamically-typed Go value (decoded JSON held in interface
values); `vNull` stands for the nil interface. -/
inductive GoVal where
  | vNull
  | vStr (s : Str)
  | vBool (b : Bool)
  | vInt (n : Int)
  | vMap (entries : List (Str × GoVal))

/-- A dynamic Go map, `map[string]interface` values. -/
abbrev GoMap := List (Str × GoVal)

/-- Lookup in a dynamic map distinguishing a missing key from a key
bound to nil (the comma-ok form of Go map indexing). -/
def goMapFind : GoMap → Str → Option GoVal
  | [], _ => none
  | (k, v) :: rest, key => if k = key then some v else goMapFind rest key

/-- Plain Go map indexing on a dynamic map: a missing key and a key
bound to nil both yield the nil interface value. -/
def goIndex (m : GoMap) (key : Str) : GoVal :=
  match goMapFind m key with
  | none => .vNull
  | some v => v

/-- Go map indexing through a possibly-nil map (indexing a nil Go map
yields the zero value and does not panic). -/
def goIndexOpt (m : Option GoMap) (key : Str) : GoVal :=
  match m with
  | none => .vNull
  | some mm => goIndex mm key

/-- The dynamic value of a Go `map[string]string`. -/
def strMapVal (m : List (Str × Str)) : GoVal :=
  .vMap (m.map (fun kv => (kv.1, GoVal.vStr kv.2)))

/-- Go string-map insertion: overwrites an existing key in place,
appends a new one. -/
def goInsertStr : List (Str × Str) → Str → Str → List (Str × Str)
  | [], k, v => [(k, v)]
  | (k0, v0) :: rest, k, v =>
    if k0 = k then (k, v) :: rest else (k0, v0) :: goInsertStr rest k v

/-- The element-wise copy loop Go code uses to duplicate a string map. -/
def copyStrMap (m : List (Str × Str)) : List (Str × Str) :=
  m.foldl (fun acc kv => goInsertStr acc kv.1 kv.2) []

/-- Reads a dynamic map whose values are all strings, as the loop
`for k, v := range m { out[k] = v.(string) }` does; `none` models the
panic of the type assertion on a non-string (or nil) value. -/
def strMapOfGo : GoMap → Option (List (Str × Str))
  | [] => some []
  | (k, .vStr s) :: rest => (strMapOfGo rest).map (fun r => (k, s) :: r)
  | _ => none

/-- Wrapping contexts of the `fmt.Errorf("...: %w", err)` calls in the
vault layer, one per distinct message text. -/
inductive WrapCtx where
  | invalidPathData
  | invalidPathMetadata
  | invalidPathDeletion
  | unableReadData
  | unableReadMetadata
  | unableCheckDeletion
  | unableWriteData
  | unableWriteMetadata
  | unableReadVersion
  | unableMarkDeleted
deriving DecidableEq

/-- The error values returned by the embedded code. -/
inductive VErr where
  | unsupportedMount
  | preflightFailed
  | preflightParse
  | preflightNil
  | transport (p : Str)
  | alreadyExists (p : Str)
  | missingCustomMetadata
  | noMetadata
  | secretDeleted
  | missingSecretData
  | missingSecretMetadata
  | badVersionKey (k : Str)
  | decodeFailed
  | wrap (ctx : WrapCtx) (e : VErr)
deriving DecidableEq

/-- Reasons a Go runtime panic can occur in the embedded code. -/
inductive PanicReason where
  | nilDeref
  | ifaceNotString
  | ifaceNotMap
deriving DecidableEq

/-- Outcome of a Go call: a value, an error return, or a runtime panic. -/
inductive Out (α : Type) where
  | ok (a : α)
  | err (e : VErr)
  | panic (r : PanicReason)
deriving DecidableEq

/-- Response of the mount-discovery endpoint
`/v1/sys/internal/ui/mounts/<path>` as observed by
`kvPreflightVersionRequest` after `client.RawRequest` and
`api.ParseSecret`. -/
inductive MountResp where
  | httpErr (status : Option Nat)
  | parseErr
  | nilSecret
  | found (data : GoMap)

/-- A logged call to the generic Logical key-value interface. -/
inductive Call where
  | read (p : Str)
  | write (p : Str) (v : GoMap)
  | del (p : Str)

/-- The embedded Vault client and store: mount-discovery responses, the
object readable at each physical path (the stored value is the `.Data`
of the returned secret, itself possibly a nil map), injected transport
failures, and a log of the Logical calls issued. -/
structure VaultClient where
  mounts : Str → MountResp
  entries : List (Str × Option GoMap)
  readFails : Str → Bool
  writeFails : Str → Bool
  deleteFails : Str → Bool
  log : List Call

/-- Store lookup; `none` is a missing path (a nil secret on read). -/
def getEntry : List (Str × Option GoMap) → Str → Option (Option GoMap)
  | [], _ => none
  | (k, v) :: rest, key => if k = key then some v else getEntry rest key

/-- Store update at a path. -/
def setEntry : List (Str × Option GoMap) → Str → Option GoMap → List (Str × Option GoMap)
  | [], key, v => [(key, v)]
  | (k0, v0) :: rest, key, v =>
    if k0 = key then (key, v) :: rest else (k0, v0) :: setEntry rest key v

/-- Store removal at a path. -/
def delEntry : List (Str × Option GoMap) → Str → List (Str × Option GoMap)
  | [], _ => []
  | (k0, v0) :: rest, key =>
    if k0 = key then delEntry rest key else (k0, v0) :: delEntry rest key

/-- Call `client.Logical().Read(p)`: logs the request; an injected transport
failure is an error; otherwise returns the object at `p` (`none` models
the nil secret returned for a missing path). -/
def logicalRead (c : VaultClient) (p : Str) : Out (Option (Option GoMap)) × VaultClient :=
  let c1 := { c with log := c.log ++ [Call.read p] }
  if c.readFails p then (.err (.transport p), c1)
  else (.ok (getEntry c.entries p), c1)

/-- Call `client.Logical().Write(p, v)`. -/
def logicalWrite (c : VaultClient) (p : Str) (v : GoMap) : Out Unit × VaultClient :=
  let c1 := { c with log := c.log ++ [Call.write p v] }
  if c.writeFails p then (.err (.transport p), c1)
  else (.ok (), { c1 with entries := setEntry c1.entries p (some v) })

/-- Call `client.Logical().Delete(p)`. -/
def logicalDelete (c : VaultClient) (p : Str) : Out Unit × VaultClient :=
  let c1 := { c with log := c.log ++ [Call.del p] }
  if c.deleteFails p then (.err (.transport p), c1)
  else (.ok (), { c1 with entries := delEntry c1.entries p })

/-- The options/version tail of `kvPreflightVersionRequest`: an absent
options structure or version field defaults to version 1; the version
must be a string (else the type assertion panics); the literal "2"
selects version 2 and any other string selects 1. -/
def kvPreflightOptions (data : GoMap) (mountPath : Str) : Out (Str × Nat) :=
  match goIndex data (strOf "options") with
  | .vNull => .ok (mountPath, 1)
  | .vMap opts =>
    match goIndex opts (strOf "version") with
    | .vNull => .ok (mountPath, 1)
    | .vStr v =>
      if v = strOf "" ∨ v = strOf "1" then .ok (mountPath, 1)
      else if v = strOf "2" then .ok (mountPath, 2)
      else .ok (mountPath, 1)
    | _ => .panic .ifaceNotString
  | _ => .panic .ifaceNotMap

/-- The parsing tail of `kvPreflightVersionRequest`: a present "path"
key must hold a string (the type assertion panics otherwise, also on a
null value); a missing one leaves the mount path empty. -/
def kvPreflightParse (data : GoMap) : Out (Str × Nat) :=
  match goMapFind data (strOf "path") with
  | some (.vStr mp) => kvPreflightOptions data mp
  | some _ => .panic .ifaceNotString
  | none => kvPreflightOptions data []

/-- Function `kvPreflightVersionRequest` from the source. The toggling of the
wrapping-lookup and output flags around the raw request has no
observable effect in this model (it is restored on every path); a 404
means an older store generation and defaults to version 1 with an
empty mount path. -/
def kvPreflightVersionRequest (mounts : Str → MountResp) (path : Str) : Out (Str × Nat) :=
  match mounts path with
  | .httpErr (some 404) => .ok ([], 1)
  | .httpErr _ => .err .preflightFailed
  | .parseErr => .err .preflightParse
  | .nilSecret => .err .preflightNil
  | .found data => kvPreflightParse data

/-- Function `isKVv2` from the source. -/
def isKVv2 (path : Str) (mounts : Str → MountResp) : Out (Str × Bool) :=
  match kvPreflightVersionRequest mounts path with
  | .ok (mountPath, version) => .ok (mountPath, version == 2)
  | .err e => .err e
  | .panic r => .panic r

/-- Function `prefixSecretPath` from the source: sanitizes the path, resolves its
mount, fails on a non-KV-v2 mount, and otherwise rewrites the path. -/
def prefixSecretPath (mounts : Str → MountResp) (secretPath apiSeg : Str) : Out Str :=
  let partialPath := sanitizePath secretPath
  match isKVv2 partialPath mounts with
  | .err e => .err e
  | .panic r => .panic r
  | .ok (mountPath, v2) =>
    if v2 then .ok (addPrefixToKVPath partialPath mountPath apiSeg)
    else .err .unsupportedMount

/-- Function `secretMetadataPath` from the source. -/
def secretMetadataPath (mounts : Str → MountResp) (secretPath : Str) : Out Str :=
  prefixSecretPath mounts secretPath (strOf "metadata")

/-- Function `secretDataPath` from the source. -/
def secretDataPath (mounts : Str → MountResp) (secretPath : Str) : Out Str :=
  prefixSecretPath mounts secretPath (strOf "data")

/-- Function `secretDeletePath` from the source. -/
def secretDeletePath (mounts : Str → MountResp) (secretPath : Str) : Out Str :=
  prefixSecretPath mounts secretPath (strOf "delete")

/-- Function `isSecretDeleted` from the source, applied to the `.Data` of the
secret read from the data sub-path: fails when the secret has a nil
Data map or no "metadata" field; panics when the metadata field is not
a map; otherwise reports deleted exactly when the "deletion_time" entry
is the nil interface (absent or null). -/
def isSecretDeleted (secretData : Option GoMap) : Out Bool :=
  match secretData with
  | none => .err .missingSecretData
  | some d =>
    match goIndex d (strOf "metadata") with
    | .vNull => .err .missingSecretMetadata
    | .vMap md =>
      match goIndex md (strOf "deletion_time") with
      | .vNull => .ok true
      | _ => .ok false
    | _ => .panic .ifaceNotMap

/-- The `vault.Secret` triple. -/
structure Secret where
  path : Str
  data : GoMap
  metadata : List (Str × Str)

/-- Method `VaultApi.CreateSecret` from the source: resolves the data sub-path,
fails when any object already exists there, then writes the data
(wrapped under "data") and the metadata (wrapped under
"custom_metadata"), in that order. -/
def createSecret (c : VaultClient) (secret : Secret) : Out Unit × VaultClient :=
  match secretDataPath c.mounts secret.path with
  | .err e => (.err (.wrap .invalidPathData e), c)
  | .panic r => (.panic r, c)
  | .ok dataPath =>
    match logicalRead c dataPath with
    | (.err e, c1) => (.err (.wrap .unableReadData e), c1)
    | (.panic r, c1) => (.panic r, c1)
    | (.ok (some _), c1) => (.err (.alreadyExists secret.path), c1)
    | (.ok none, c1) =>
      match secretMetadataPath c1.mounts secret.path with
      | .err e => (.err (.wrap .invalidPathMetadata e), c1)
      | .panic r => (.panic r, c1)
      | .ok metadataPath =>
        match logicalWrite c1 dataPath [(strOf "data", .vMap secret.data)] with
        | (.err e, c2) => (.err (.wrap .unableWriteData e), c2)
        | (.panic r, c2) => (.panic r, c2)
        | (.ok _, c2) =>
          match logicalWrite c2 metadataPath [(strOf "custom_metadata", strMapVal secret.metadata)] with
          | (.err e, c3) => (.err (.wrap .unableWriteMetadata e), c3)
          | (.panic r, c3) => (.panic r, c3)
          | (.ok _, c3) => (.ok (), c3)

/-- Method `VaultApi.ReadSecret` from the source. A nil data-path response is
the absent result (nil secret, nil error). The metadata-sub-path read
result is dereferenced without a nil check (`secretMetadata.Data`), so
a nil response panics; the custom-metadata and data fields are accessed
through unchecked type assertions, which panic on nil or mistyped
values. -/
def readSecret (c : VaultClient) (secretPath : Str) : Out (Option Secret) × VaultClient :=
  match secretDataPath c.mounts secretPath with
  | .err e => (.err (.wrap .invalidPathData e), c)
  | .panic r => (.panic r, c)
  | .ok dataPath =>
    match logicalRead c dataPath with
    | (.err e, c1) => (.err (.wrap .unableReadData e), c1)
    | (.panic r, c1) => (.panic r, c1)
    | (.ok none, c1) => (.ok none, c1)
    | (.ok (some secretData), c1) =>
      match isSecretDeleted secretData with
      | .err e => (.err (.wrap .unableCheckDeletion e), c1)
      | .panic r => (.panic r, c1)
      | .ok true => (.err .secretDeleted, c1)
      | .ok false =>
        match secretMetadataPath c1.mounts secretPath with
        | .err e => (.err (.wrap .invalidPathMetadata e), c1)
        | .panic r => (.panic r, c1)
        | .ok metadataPath =>
          match logicalRead c1 metadataPath with
          | (.err e, c2) => (.err (.wrap .unableReadMetadata e), c2)
          | (.panic r, c2) => (.panic r, c2)
          | (.ok none, c2) => (.panic .nilDeref, c2)
          | (.ok (some metaData), c2) =>
            match goIndexOpt metaData (strOf "custom_metadata") with
            | .vNull => (.err .missingCustomMetadata, c2)
            | .vMap cmRaw =>
              match strMapOfGo cmRaw with
              | none => (.panic .ifaceNotString, c2)
              | some customMetadata =>
                match goIndexOpt secretData (strOf "data") with
                | .vMap dm => (.ok (some ⟨secretPath, dm, customMetadata⟩), c2)
                | _ => (.panic .ifaceNotMap, c2)
            | _ => (.panic .ifaceNotMap, c2)

/-- Method `VaultApi.UpdateSecretMetadata` from the source: requires existing
custom metadata (a nil metadata response is dereferenced without check
and panics), then writes the supplied mapping, copied element-wise and
wrapped under "custom_metadata", as the entire new metadata object. -/
def updateSecretMetadata (c : VaultClient) (secretPath : Str)
    (metadata : List (Str × Str)) : Out Unit × VaultClient :=
  match secretMetadataPath c.mounts secretPath with
  | .err e => (.err (.wrap .invalidPathMetadata e), c)
  | .panic r => (.panic r, c)
  | .ok metadataPath =>
    match logicalRead c metadataPath with
    | (.err e, c1) => (.err (.wrap .unableReadMetadata e), c1)
    | (.panic r, c1) => (.panic r, c1)
    | (.ok none, c1) => (.panic .nilDeref, c1)
    | (.ok (some metaData), c1) =>
      match goIndexOpt metaData (strOf "custom_metadata") with
      | .vNull => (.err .missingCustomMetadata, c1)
      | _ =>
        match logicalWrite c1 metadataPath
            [(strOf "custom_metadata", strMapVal (copyStrMap metadata))] with
        | (.err e, c2) => (.err (.wrap .unableWriteMetadata e), c2)
        | (.panic r, c2) => (.panic r, c2)
        | (.ok _, c2) => (.ok (), c2)

/-- A decoded KV-v2 version record: the fields of `secretV2Version`
reachable by the mapstructure decoder. -/
structure VersionRec where
  deletionTime : Str
  destroyed : Bool
deriving DecidableEq

/-- Case-insensitive key lookup, as mapstructure matches map keys to
struct field names (the json tags on `secretV2Metadata` are ignored by
mapstructure, so the underscored wire keys such as "deletion_time"
match no field and are silently dropped). -/
def goMapFindFold : GoMap → String → Option GoVal
  | [], _ => none
  | (k, v) :: rest, f => if asciiFold k = strOf f then some v else goMapFindFold rest f

/-- The deletion-time and destroyed fields of a version record. -/
def decodeVersionRecFields (m : GoMap) : Option VersionRec :=
  match goMapFindFold m "deletiontime", goMapFindFold m "destroyed" with
  | some (.vStr dt), some (.vBool b) => some ⟨dt, b⟩
  | some (.vStr dt), none => some ⟨dt, false⟩
  | some (.vStr dt), some .vNull => some ⟨dt, false⟩
  | none, some (.vBool b) => some ⟨[], b⟩
  | none, none => some ⟨[], false⟩
  | none, some .vNull => some ⟨[], false⟩
  | some .vNull, some (.vBool b) => some ⟨[], b⟩
  | some .vNull, none => some ⟨[], false⟩
  | some .vNull, some .vNull => some ⟨[], false⟩
  | _, _ => none

/-- mapstructure decoding of one `secretV2Version` record from a
dynamic map: a nil or missing field keeps the zero value, a matched
field of the wrong type is an error; a matched "createdtime" key is an
error since a `time.Time` target cannot decode a scalar. -/
def decodeVersionRec (m : GoMap) : Option VersionRec :=
  match goMapFindFold m "createdtime" with
  | some v => if v matches GoVal.vNull then decodeVersionRecFields m else none
  | none => decodeVersionRecFields m

/-- mapstructure decoding of the `Versions map[string]secretV2Version`
field from its dynamic value: each entry must itself be a map (or nil,
which keeps a zero record). -/
def decodeVersions : List (Str × GoVal) → Option (List (Str × VersionRec))
  | [] => some []
  | (k, .vMap vm) :: rest =>
    match decodeVersionRec vm, decodeVersions rest with
    | some r, some l => some ((k, r) :: l)
    | _, _ => none
  | (k, .vNull) :: rest => (decodeVersions rest).map (fun l => (k, ⟨[], false⟩) :: l)
  | _ => none

/-- The decoded `secretV2Metadata` (only the Versions field is consumed
by the code). -/
structure MetaRec where
  versions : List (Str × VersionRec)

/-- mapstructure decoding of one top-level key of `secretV2Metadata`:
`none` is a decode error, `some none` an ignored or scalar field,
`some (some vs)` the decoded Versions field. Keys matching no field
name case-insensitively are ignored; nil values keep the zero value;
the two `time.Time` fields cannot decode a scalar. -/
def decodeTopField (kv : Str × GoVal) : Option (Option (List (Str × VersionRec))) :=
  let f := asciiFold kv.1
  if kv.2 matches GoVal.vNull then some none
  else if f = strOf "versions" then
    match kv.2 with
    | .vMap vs => (decodeVersions vs).map some
    | _ => none
  else if f = strOf "casrequired" then
    match kv.2 with
    | .vBool _ => some none
    | _ => none
  else if f = strOf "currentversion" ∨ f = strOf "maxversions" ∨ f = strOf "oldestversion" then
    match kv.2 with
    | .vInt _ => some none
    | _ => none
  else if f = strOf "deleteversionafter" then
    match kv.2 with
    | .vStr _ => some none
    | _ => none
  else if f = strOf "custommetadata" then
    match kv.2 with
    | .vMap mm => if (strMapOfGo mm).isSome then some none else none
    | _ => none
  else if f = strOf "createdtime" ∨ f = strOf "updatedtime" then none
  else some none

/-- mapstructure decoding of all top-level keys of `secretV2Metadata`. -/
def decodeMetaFields : GoMap → Option MetaRec
  | [] => some ⟨[]⟩
  | kv :: rest =>
    match decodeTopField kv with
    | none => none
    | some none => decodeMetaFields rest
    | some (some vs) =>
      match decodeMetaFields rest with
      | none => none
      | some r => some ⟨vs ++ r.versions⟩

/-- Call `mapstructure.Decode(secret.Data, &metadata)`: a nil Data map
decodes to the zero value without error. -/
def decodeSecretV2Metadata (d : Option GoMap) : Option MetaRec :=
  match d with
  | none => some ⟨[]⟩
  | some m => decodeMetaFields m

/-- The version-enumeration loop of `DeleteSecret`: skips soft-deleted
versions (non-empty DeletionTime), Atoi-parses the remaining keys and
fails on the first unparsable one. -/
def collectVersionsToDelete : List (Str × VersionRec) → Except Str (List Int)
  | [] => .ok []
  | (k, v) :: rest =>
    if v.deletionTime ≠ [] then collectVersionsToDelete rest
    else
      match goAtoi k with
      | none => .error k
      | some n =>
        match collectVersionsToDelete rest with
        | .error e => .error e
        | .ok l => .ok (n :: l)

/-- Method `VaultApi.DeleteSecret` from the source: reads the metadata
sub-path (failing when nothing is there), decodes the version metadata,
enumerates the active version numbers, then resolves the metadata
sub-path again as the delete path and issues a single delete call
against it; the enumerated version list is not passed to that call. -/
def deleteSecret (c : VaultClient) (secretPath : Str) : Out Unit × VaultClient :=
  match secretMetadataPath c.mounts secretPath with
  | .err e => (.err (.wrap .invalidPathMetadata e), c)
  | .panic r => (.panic r, c)
  | .ok metadataPath =>
    match logicalRead c metadataPath with
    | (.err e, c1) => (.err (.wrap .unableReadMetadata e), c1)
    | (.panic r, c1) => (.panic r, c1)
    | (.ok none, c1) => (.err .noMetadata, c1)
    | (.ok (some secretData), c1) =>
      match decodeSecretV2Metadata secretData with
      | none => (.err (.wrap .unableReadMetadata .decodeFailed), c1)
      | some metadata =>
        match collectVersionsToDelete metadata.versions with
        | .error k => (.err (.wrap .unableReadVersion (.badVersionKey k)), c1)
        | .ok _versionsToDelete =>
          match secretMetadataPath c1.mounts secretPath with
          | .err e => (.err (.wrap .invalidPathDeletion e), c1)
          | .panic r => (.panic r, c1)
          | .ok deletePath =>
            match logicalDelete c1 deletePath with
            | (.err e, c2) => (.err (.wrap .unableMarkDeleted e), c2)
            | (.panic r, c2) => (.panic r, c2)
            | (.ok _, c2) => (.ok (), c2)

/-- Diagnostics messages added by the keypair resource handlers. -/
inductive DiagMsg where
  | errUnsupportedType (t : Str)
  | errCreatingPrivateKey (e : VErr)
  | errCreatingPublicKey (e : VErr)
  | warnRollbackFailed (p : Str) (e : VErr)
  | errUpdatingSecret (p : Str) (e : VErr)
deriving DecidableEq

/-- The diagnostics of one resource operation: the claim-relevant split
between fatal errors and non-fatal warnings. -/
structure Diags where
  errors : List DiagMsg
  warnings : List DiagMsg
deriving DecidableEq

/-- The `keyPairSecretModel` attributes (a plan or a state). -/
structure KeyPairModel where
  basePath : Str
  typ : Str
  metadata : List (Str × Str)
  forceDestroy : Bool

/-- Function `keypairPaths` from the source: the base path with its trailing
slashes trimmed and exactly one separator appended, then the `private`
and `public` child paths. -/
def keypairPaths (basePath : Str) : Str × Str :=
  let bp := (basePath.reverse.dropWhile (· == slashChar)).reverse ++ [slashChar]
  (bp ++ strOf "private", bp ++ strOf "public")

/-- The custom-metadata map Create builds for the private half: the
user metadata copied into a fresh map, then `secret_type`,
`secret_length`, and the private-half linkage keys inserted in source
order. -/
def keypairPrivMeta (typ : Str) (userMeta : List (Str × Str)) (publicKeyPath : Str) :
    List (Str × Str) :=
  goInsertStr (goInsertStr (goInsertStr (goInsertStr (copyStrMap userMeta)
    (strOf "secret_type") typ)
    (strOf "secret_length") (natToDecStr 32))
    (strOf "keypair_linked_secret_path") publicKeyPath)
    (strOf "keypair_part") (strOf "private")

/-- The public-half metadata, obtained in the source by mutating the
same map in place: the linkage keys are overwritten. -/
def keypairPubMetaOf (privMeta : List (Str × Str)) (privateKeyPath : Str) :
    List (Str × Str) :=
  goInsertStr (goInsertStr privMeta
    (strOf "keypair_linked_secret_path") privateKeyPath)
    (strOf "keypair_part") (strOf "public")

/-- The private-half secret written by Create. -/
def keypairPrivSecret (plan : KeyPairModel) (privKey : List Nat) : Secret :=
  ⟨(keypairPaths plan.basePath).1,
   [(strOf "secret", .vStr (base64StdEncode privKey))],
   keypairPrivMeta plan.typ plan.metadata (keypairPaths plan.basePath).2⟩

/-- The public-half secret written by Create. -/
def keypairPubSecret (plan : KeyPairModel) (pubKey : List Nat) : Secret :=
  ⟨(keypairPaths plan.basePath).2,
   [(strOf "secret", .vStr (base64StdEncode pubKey))],
   keypairPubMetaOf (keypairPrivMeta plan.typ plan.metadata (keypairPaths plan.basePath).2)
     (keypairPaths plan.basePath).1⟩

/-- Method `KeyPairSecret.Create` from the source (plan decoding is assumed to
succeed and key generation is the external cryptographic collaborator,
so the generated keys are parameters): writes the private half first,
then the public half; when the public half fails, the already-written
private half is deleted as compensation and a distinct non-fatal
warning is surfaced when that rollback itself fails, while the
operation still reports the original error. -/
def keypairCreate (c : VaultClient) (plan : KeyPairModel)
    (privKey pubKey : List Nat) : Out Diags × VaultClient :=
  if plan.typ ≠ strOf "curve25519" then (.ok ⟨[.errUnsupportedType plan.typ], []⟩, c)
  else
    let privateKeyPath := (keypairPaths plan.basePath).1
    match createSecret c (keypairPrivSecret plan privKey) with
    | (.err e, c1) => (.ok ⟨[.errCreatingPrivateKey e], []⟩, c1)
    | (.panic r, c1) => (.panic r, c1)
    | (.ok _, c1) =>
      match createSecret c1 (keypairPubSecret plan pubKey) with
      | (.ok _, c2) => (.ok ⟨[], []⟩, c2)
      | (.panic r, c2) => (.panic r, c2)
      | (.err e, c2) =>
        match deleteSecret c2 privateKeyPath with
        | (.ok _, c3) => (.ok ⟨[.errCreatingPublicKey e], []⟩, c3)
        | (.err re, c3) =>
          (.ok ⟨[.errCreatingPublicKey e], [.warnRollbackFailed privateKeyPath re]⟩, c3)
        | (.panic r, c3) => (.panic r, c3)

/-- Method `KeyPairSecret.Update` from the source: no immutability check is
performed here (base_path and type carry RequiresReplace plan
modifiers, so the handler is only ever invoked for metadata or
force-destroy changes); the child paths and the secret type are
derived from the state, the user metadata from the plan; a distinct
metadata map is built for each half and written via
UpdateSecretMetadata, private half first; on success the saved state
keeps the state base path and type and takes the plan metadata and
force-destroy flag. -/
def keypairUpdate (c : VaultClient) (plan state : KeyPairModel) :
    Out (Diags × Option KeyPairModel) × VaultClient :=
  let privateKeyPath := (keypairPaths state.basePath).1
  let publicKeyPath := (keypairPaths state.basePath).2
  let userMetadata := copyStrMap plan.metadata
  let privateMetadata :=
    goInsertStr (goInsertStr (goInsertStr (goInsertStr (copyStrMap userMetadata)
      (strOf "secret_type") state.typ)
      (strOf "secret_length") (natToDecStr 32))
      (strOf "keypair_linked_secret_path") publicKeyPath)
      (strOf "keypair_part") (strOf "private")
  let publicMetadata :=
    goInsertStr (goInsertStr (goInsertStr (goInsertStr (copyStrMap userMetadata)
      (strOf "secret_type") state.typ)
      (strOf "secret_length") (natToDecStr 32))
      (strOf "keypair_linked_secret_path") privateKeyPath)
      (strOf "keypair_part") (strOf "public")
  match updateSecretMetadata c privateKeyPath privateMetadata with
  | (.err e, c1) => (.ok (⟨[.errUpdatingSecret privateKeyPath e], []⟩, none), c1)
  | (.panic r, c1) => (.panic r, c1)
  | (.ok _, c1) =>
    match updateSecretMetadata c1 publicKeyPath publicMetadata with
    | (.err e, c2) => (.ok (⟨[.errUpdatingSecret publicKeyPath e], []⟩, none), c2)
    | (.panic r, c2) => (.panic r, c2)
    | (.ok _, c2) =>
      (.ok (⟨[], []⟩,
        some { state with metadata := plan.metadata, forceDestroy := plan.forceDestroy }), c2)

/-- The writes among a list of logged calls. -/
def writeCalls : List Call → List Str
  | [] => []
  | Call.write p _ :: rest => p :: writeCalls rest
  | _ :: rest => writeCalls rest

/-- The deletes among a list of logged calls. -/
def deleteCalls : List Call → List Str
  | [] => []
  | Call.del p :: rest => p :: deleteCalls rest
  | _ :: rest => deleteCalls rest

/-- A mount table answering every path with a KV-v2 mount at `secret/`. -/
def mountsV2 : Str → MountResp := fun _ =>
  .found [(strOf "path", .vStr (strOf "secret/")),
          (strOf "options", .vMap [(strOf "version", .vStr (strOf "2"))])]

/-- A mount table answering every path with a KV-v1 mount at `secret/`. -/
def mountsV1 : Str → MountResp := fun _ =>
  .found [(strOf "path", .vStr (strOf "secret/")),
          (strOf "options", .vMap [(strOf "version", .vStr (strOf "1"))])]

/-- A mount table whose discovery endpoint answers 404 for every path. -/
def mounts404 : Str → MountResp := fun _ => .httpErr (some 404)

/-- No injected transport failures. -/
def noFails : Str → Bool := fun _ => false

/-- Store state where the data sub-path of `secret/foo` holds a secret
whose latest-version metadata carries a non-empty deletion timestamp,
and custom metadata exists at the metadata sub-path. -/
def clientDeletedTs : VaultClient :=
  ⟨mountsV2,
   [(strOf "secret/data/foo",
     some [(strOf "data", .vMap [(strOf "secret", .vStr (strOf "QUJD"))]),
           (strOf "metadata",
            .vMap [(strOf "deletion_time", .vStr (strOf "2024-01-01T00:00:00Z"))])]),
    (strOf "secret/metadata/foo",
     some [(strOf "custom_metadata", .vMap [(strOf "secret_type", .vStr (strOf "random_secret"))])])],
   noFails, noFails, noFails, []⟩

/-- Store state with a live secret at the data sub-path of `secret/foo`
but nothing at its metadata sub-path, so the metadata-sub-path read
returns a nil secret. -/
def clientNilMeta : VaultClient :=
  ⟨mountsV2,
   [(strOf "secret/data/foo",
     some [(strOf "data", .vMap [(strOf "secret", .vStr (strOf "QUJD"))]),
           (strOf "metadata", .vMap [(strOf "deletion_time", .vStr (strOf ""))])])],
   noFails, noFails, noFails, []⟩

/-- A client over an empty KV-v2 store. -/
def clientEmpty : VaultClient := ⟨mountsV2, [], noFails, noFails, noFails, []⟩

/-- A client over a store whose every path is served by a KV-v1 mount. -/
def clientV1 : VaultClient := ⟨mountsV1, [], noFails, noFails, noFails, []⟩

/-- A keypair state stored under base path `secret/old`. -/
def kpState : KeyPairModel :=
  ⟨strOf "secret/old", strOf "curve25519", [(strOf "owner", strOf "a")], false⟩

/-- A keypair plan attempting to change the base path and the type. -/
def kpPlanChanged : KeyPairModel :=
  ⟨strOf "secret/new", strOf "other", [(strOf "owner", strOf "b")], true⟩

/-- Store state with existing custom metadata at both keypair metadata
sub-paths of base path `secret/old`. -/
def clientKp : VaultClient :=
  ⟨mountsV2,
   [(strOf "secret/metadata/old/private",
     some [(strOf "custom_metadata", .vMap [(strOf "owner", .vStr (strOf "a"))])]),
    (strOf "secret/metadata/old/public",
     some [(strOf "custom_metadata", .vMap [(strOf "owner", .vStr (strOf "a"))])])],
   noFails, noFails, noFails, []⟩

/-- Injected failure of the write to the public-half data sub-path of
base path `secret/kp`. -/
def pubDataWriteFails : Str → Bool := fun p => decide (p = strOf "secret/data/kp/public")

/-- A keypair plan for base path `secret/kp`. -/
def kpPlan : KeyPairModel :=
  ⟨strOf "secret/kp", strOf "curve25519", [(strOf "owner", strOf "team")], false⟩

/-- A client over an empty KV-v2 store whose public-half data write
fails. -/
def cKpFailPub : VaultClient := ⟨mountsV2, [], noFails, pubDataWriteFails, noFails, []⟩

/-- Store state with existing custom metadata at the metadata sub-path
of `secret/foo`. -/
def clientMeta : VaultClient :=
  ⟨mountsV2,
   [(strOf "secret/metadata/foo",
     some [(strOf "custom_metadata", .vMap [(strOf "old", .vStr (strOf "x"))])])],
   noFails, noFails, noFails, []⟩

/-- Store state with two active versions recorded at the metadata
sub-path of `secret/foo`. -/
def clientVersions : VaultClient :=
  ⟨mountsV2,
   [(strOf "secret/metadata/foo",
     some [(strOf "versions",
            .vMap [(strOf "1", .vMap [(strOf "deletion_time", .vStr (strOf ""))]),
                   (strOf "2", .vMap [])])])],
   noFails, noFails, noFails, []⟩

/-- Store state whose version map at the metadata sub-path of
`secret/foo` has a key that is not a decimal integer, with an empty
deletion time. -/
def clientBadVersion : VaultClient :=
  ⟨mountsV2,
   [(strOf "secret/metadata/foo",
     some [(strOf "versions", .vMap [(strOf "abc", .vMap [])])])],
   noFails, noFails, noFails, []⟩

theorem trimSuf_length_le (s t : Str) : (trimSuf s t).length ≤ s.length := by
  unfold trimSuf
  split
  · simp [List.length_take]
  · exact le_refl _

theorem splitFirstSlash_post_length :
    ∀ (s pre post : Str), splitFirstSlash s = some (pre, post) → post.length < s.length := by
  intro s
  induction s with
  | nil => intro pre post h; simp [splitFirstSlash] at h
  | cons c rest ih =>
    intro pre post h
    simp only [splitFirstSlash] at h
    split at h
    · cases h
      simp
    · cases hs : splitFirstSlash rest with
      | none => rw [hs] at h; cases h
      | some pr =>
        rw [hs] at h
        cases h
        have := ih pr.1 pr.2 (by rw [hs])
        simp only [List.length_cons]
        omega

theorem trimPre_eq_of_not_pre {p m : Str} (h : ¬ m <+: p) : trimPre p m = p := by
  unfold trimPre
  simp [h]

theorem trimPre_nil (p : Str) : trimPre p [] = p := by
  unfold trimPre
  simp

theorem trimPre_ne_of_pre {p m : Str} (h : m <+: p) (hm : m ≠ []) : trimPre p m ≠ p := by
  unfold trimPre
  simp only [h, if_pos]
  intro hcontra
  have hle : m.length ≤ p.length := h.length_le
  have := congrArg List.length hcontra
  simp only [List.length_drop] at this
  have hmlen : 0 < m.length := List.length_pos.mpr hm
  omega

theorem addPrefixLoopF_eq_strip :
    ∀ (fuel : Nat) (p m : Str), m.length < fuel →
      addPrefixLoopF fuel p m (trimPre p m) =
        (stripMountSpecF fuel p m, trimPre p (stripMountSpecF fuel p m)) := by
  intro fuel
  induction fuel with
  | zero => intro p m h; omega
  | succ n ih =>
    intro p m hlen
    by_cases hpre : m <+: p
    · by_cases hm : m = []
      · subst hm
        simp only [addPrefixLoopF, stripMountSpecF, trimPre_nil, splitFirstSlash]
        simp [hpre, trimPre_nil]
      · have hne := trimPre_ne_of_pre hpre hm
        simp only [addPrefixLoopF, stripMountSpecF]
        simp [hne, hpre]
    · have heq := trimPre_eq_of_not_pre hpre
      rw [heq]
      cases hs : splitFirstSlash m with
      | none =>
        simp [addPrefixLoopF, stripMountSpecF, hs, hpre, heq]
      | some pr =>
        obtain ⟨a, b⟩ := pr
        by_cases hpost : b = []
        · simp [addPrefixLoopF, stripMountSpecF, hs, hpre, hpost, heq]
        · have hlt := splitFirstSlash_post_length m a b (by rw [hs])
          have hsuf := trimSuf_length_le b [slashChar]
          have hm2 : (trimSuf b [slashChar]).length < n := by omega
          have hrec := ih p (trimSuf b [slashChar]) hm2
          simp only [addPrefixLoopF, stripMountSpecF, hs, if_neg hpre, ne_eq,
            not_true_eq_false, if_false, if_neg hpost]
          exact hrec

/-- C6: for every path `p`, mount path `m` and API segment `s`, the
source path rewriting agrees with its specification: `m` joined with
`s` and no trailing remainder when `p` equals `m` with or without its
trailing slash, and otherwise the path with `s` inserted immediately
after the mount path, iteratively stripping leading segments of `m`
when `m` is not a prefix of `p` until the remainder is a prefix of `p`
or no segments remain. -/
theorem claim_c6_add_prefix_to_kv_path_spec :
    ∀ (p m s : Str), addPrefixToKVPath p m s = addPrefixToKVPathSpec p m s := by
  intro p m s
  unfold addPrefixToKVPath addPrefixToKVPathSpec
  split
  · rfl
  · have h := addPrefixLoopF_eq_strip (m.length + 1) p m (by omega)
    rw [h]
    rfl

/-- C1 (code evaluation at the failing input): the latest version of
the secret at the data sub-path carries the non-empty deletion
timestamp `2024-01-01T00:00:00Z`, yet ReadSecret does not return the
secret-deleted error: it successfully returns the prior data, because
`isSecretDeleted` reports deleted only when the `deletion_time` entry
is the nil interface rather than when it is a non-empty string. -/
theorem claim_c1_deleted_read_succeeds :
    strOf "2024-01-01T00:00:00Z" ≠ [] ∧
    (readSecret clientDeletedTs (strOf "secret/foo")).1 =
      .ok (some ⟨strOf "secret/foo",
                 [(strOf "secret", .vStr (strOf "QUJD"))],
                 [(strOf "secret_type", strOf "random_secret")]⟩) :=
  ⟨by decide, rfl⟩

/-- C2 (code evaluation at the failing input): when the
metadata-sub-path read returns a nil secret, both ReadSecret and
UpdateSecretMetadata dereference it without a check and panic instead
of reporting an error. -/
theorem claim_c2_nil_metadata_read_panics :
    (readSecret clientNilMeta (strOf "secret/foo")).1 = .panic .nilDeref ∧
    (updateSecretMetadata clientNilMeta (strOf "secret/foo") []).1 = .panic .nilDeref :=
  ⟨rfl, rfl⟩

/-- C3 counterexample: a keypair Update call whose planned basePath and
type both differ from the state is not rejected: it reports no error,
saves the state, and performs the metadata writes to both halves. -/
theorem claim_c3_counterexample :
    kpPlanChanged.basePath ≠ kpState.basePath ∧
    kpPlanChanged.typ ≠ kpState.typ ∧
    (keypairUpdate clientKp kpPlanChanged kpState).1 =
      .ok (⟨[], []⟩,
        some ⟨strOf "secret/old", strOf "curve25519", kpPlanChanged.metadata, true⟩) ∧
    writeCalls (keypairUpdate clientKp kpPlanChanged kpState).2.log =
      [strOf "secret/metadata/old/private", strOf "secret/metadata/old/public"] :=
  ⟨by decide, by decide, rfl, rfl⟩

/-- C3 (amended): KeyPairSecret.Update performs no immutability check
of its own — it ignores the planned basePath and type entirely,
deriving the child paths and the stored secret type from the state
(immutability of both attributes is enforced upstream by the
RequiresReplace plan modifiers, which turn such changes into a
replacement instead of an Update call). -/
theorem claim_c3_update_ignores_plan_base_path_and_type :
    ∀ (c : VaultClient) (plan state : KeyPairModel) (bp ty : Str),
      keypairUpdate c plan state =
        keypairUpdate c ⟨bp, ty, plan.metadata, plan.forceDestroy⟩ state :=
  fun _ _ _ _ _ => rfl

/-- C5: mount discovery answering 404 resolves to version 1 with an
empty mount path; an absent options structure, an absent version field,
or any version string other than the literal "2" (including "" and
"1") resolves to version 1 and only "2" resolves to version 2; and
every SecretStore operation on a path that resolves to version 1 fails
with the unsupported-mount error before any data or metadata access
(the returned client is unchanged: no Logical call was issued). -/
theorem claim_c5_version_resolution :
    (∀ (mounts : Str → MountResp) (p : Str),
      mounts p = .httpErr (some 404) →
      kvPreflightVersionRequest mounts p = .ok ([], 1)) ∧
    (∀ (data : GoMap) (mp : Str),
      (goIndex data (strOf "options") = .vNull → kvPreflightOptions data mp = .ok (mp, 1)) ∧
      (∀ opts, goIndex data (strOf "options") = .vMap opts →
        (goIndex opts (strOf "version") = .vNull →
          kvPreflightOptions data mp = .ok (mp, 1)) ∧
        (∀ v, goIndex opts (strOf "version") = .vStr v →
          (v ≠ strOf "2" → kvPreflightOptions data mp = .ok (mp, 1)) ∧
          (v = strOf "2" → kvPreflightOptions data mp = .ok (mp, 2))))) ∧
    (∀ (c : VaultClient) (p mp : Str) (d : GoMap) (meta : List (Str × Str)),
      kvPreflightVersionRequest c.mounts (sanitizePath p) = .ok (mp, 1) →
      createSecret c ⟨p, d, meta⟩ = (.err (.wrap .invalidPathData .unsupportedMount), c) ∧
      readSecret c p = (.err (.wrap .invalidPathData .unsupportedMount), c) ∧
      updateSecretMetadata c p meta = (.err (.wrap .invalidPathMetadata .unsupportedMount), c) ∧
      deleteSecret c p = (.err (.wrap .invalidPathMetadata .unsupportedMount), c)) := by
  refine ⟨?_, ?_, ?_⟩
  · intro mounts p h
    unfold kvPreflightVersionRequest
    rw [h]
  · intro data mp
    constructor
    · intro h
      unfold kvPreflightOptions
      rw [h]
    · intro opts hopts
      constructor
      · intro hv
        simp [kvPreflightOptions, hopts, hv]
      · intro v hv
        constructor
        · intro hne
          simp only [kvPreflightOptions, hopts, hv]
          by_cases h1 : v = strOf "" ∨ v = strOf "1"
          · simp [h1]
          · simp [h1, hne]
        · intro h2
          subst h2
          simp only [kvPreflightOptions, hopts, hv]
          rw [if_neg (by decide)]
          simp
  · intro c p mp d meta h
    have hres : ∀ seg, prefixSecretPath c.mounts p seg = .err .unsupportedMount := by
      intro seg
      simp [prefixSecretPath, isKVv2, h]
    refine ⟨?_, ?_, ?_, ?_⟩
    · unfold createSecret secretDataPath
      rw [hres]
    · unfold readSecret secretDataPath
      rw [hres]
    · unfold updateSecretMetadata secretMetadataPath
      rw [hres]
    · unfold deleteSecret secretMetadataPath
      rw [hres]

/-- C5 witness: concrete instances of each part — a 404 discovery, a
version "1" options structure, and the version-1 client on which
CreateSecret and DeleteSecret fail with the unsupported-mount error
without touching the store. -/
theorem claim_c5_version_resolution_witness :
    kvPreflightVersionRequest mounts404 (strOf "secret/foo") = .ok ([], 1) ∧
    kvPreflightOptions [(strOf "options", GoVal.vMap [(strOf "version", GoVal.vStr (strOf "1"))])]
      (strOf "secret/") = .ok (strOf "secret/", 1) ∧
    createSecret clientV1 ⟨strOf "secret/foo", [], []⟩ =
      (.err (.wrap .invalidPathData .unsupportedMount), clientV1) ∧
    deleteSecret clientV1 (strOf "secret/foo") =
      (.err (.wrap .invalidPathMetadata .unsupportedMount), clientV1) := by
  refine ⟨claim_c5_version_resolution.1 mounts404 (strOf "secret/foo") rfl, ?_, ?_, ?_⟩
  · exact ((((claim_c5_version_resolution.2.1
      [(strOf "options", GoVal.vMap [(strOf "version", GoVal.vStr (strOf "1"))])]
      (strOf "secret/")).2
      [(strOf "version", GoVal.vStr (strOf "1"))] rfl).2
      (strOf "1") rfl).1 (by decide))
  · exact (claim_c5_version_resolution.2.2 clientV1 (strOf "secret/foo")
      (strOf "secret/") [] [] rfl).1
  · exact (claim_c5_version_resolution.2.2 clientV1 (strOf "secret/foo")
      (strOf "secret/") [] [] rfl).2.2.2

/-- C4: KeyPairSecret.Create writes the private half first and the
public half second (the hypotheses chain the two CreateSecret runs in
that order); whenever the public-half create fails after the private
half was written, it runs DeleteSecret on the private-half path (the
final client is exactly the post-rollback client), reports the
original write error as the only fatal diagnostic, surfaces a distinct
non-fatal warning exactly when the compensating delete itself fails,
and never reports success with only one half written. -/
theorem claim_c4_create_rollback :
    ∀ (c c1 c2 : VaultClient) (plan : KeyPairModel) (privKey pubKey : List Nat) (e : VErr),
      plan.typ = strOf "curve25519" →
      createSecret c (keypairPrivSecret plan privKey) = (.ok (), c1) →
      createSecret c1 (keypairPubSecret plan pubKey) = (.err e, c2) →
      (∀ c3, deleteSecret c2 (keypairPaths plan.basePath).1 = (.ok (), c3) →
        keypairCreate c plan privKey pubKey =
          (.ok ⟨[.errCreatingPublicKey e], []⟩, c3)) ∧
      (∀ re c3, deleteSecret c2 (keypairPaths plan.basePath).1 = (.err re, c3) →
        keypairCreate c plan privKey pubKey =
          (.ok ⟨[.errCreatingPublicKey e],
                [.warnRollbackFailed (keypairPaths plan.basePath).1 re]⟩, c3)) ∧
      (∀ d c4, keypairCreate c plan privKey pubKey = (.ok d, c4) → d.errors ≠ []) := by
  intro c c1 c2 plan privKey pubKey e hty h1 h2
  have hbody : keypairCreate c plan privKey pubKey =
      (match deleteSecret c2 (keypairPaths plan.basePath).1 with
       | (.ok _, c3) => (.ok ⟨[.errCreatingPublicKey e], []⟩, c3)
       | (.err re, c3) =>
         (.ok ⟨[.errCreatingPublicKey e],
               [.warnRollbackFailed (keypairPaths plan.basePath).1 re]⟩, c3)
       | (.panic r, c3) => (.panic r, c3)) := by
    unfold keypairCreate
    simp only [hty, ne_eq, not_true_eq_false, if_false, h1, h2]
  refine ⟨?_, ?_, ?_⟩
  · intro c3 hroll
    rw [hbody, hroll]
  · intro re c3 hroll
    rw [hbody, hroll]
  · intro d c4 hd
    rw [hbody] at hd
    rcases hrun : deleteSecret c2 (keypairPaths plan.basePath).1 with ⟨r, c3⟩
    rw [hrun] at hd
    cases r with
    | ok u =>
      simp only [Prod.mk.injEq] at hd
      obtain ⟨hd1, -⟩ := hd
      cases hd1
      simp
    | err re =>
      simp only [Prod.mk.injEq] at hd
      obtain ⟨hd1, -⟩ := hd
      cases hd1
      simp
    | panic r =>
      simp only [Prod.mk.injEq] at hd
      obtain ⟨hd1, -⟩ := hd
      cases hd1

/-- C4 witness: on the concrete client whose public-half data write
fails, keypair creation reports exactly the public-half write error,
no warning (the compensating delete succeeds), and ends in the
post-rollback client. -/
theorem claim_c4_create_rollback_witness :
    keypairCreate cKpFailPub kpPlan [1, 2] [3, 4] =
      (.ok ⟨[.errCreatingPublicKey
              (.wrap .unableWriteData (.transport (strOf "secret/data/kp/public")))], []⟩,
       (deleteSecret ((createSecret ((createSecret cKpFailPub (keypairPrivSecret kpPlan [1, 2])).2)
          (keypairPubSecret kpPlan [3, 4])).2) (keypairPaths kpPlan.basePath).1).2) := by
  exact (claim_c4_create_rollback cKpFailPub _ _ kpPlan [1, 2] [3, 4] _ rfl rfl rfl).1 _ rfl

theorem getEntry_setEntry (es : List (Str × Option GoMap)) (k2 k : Str) (v : Option GoMap) :
    getEntry (setEntry es k2 v) k = if k2 = k then some v else getEntry es k := by
  induction es with
  | nil => by_cases hk : k2 = k <;> simp [setEntry, getEntry, hk]
  | cons hd tl ih =>
    obtain ⟨k0, v0⟩ := hd
    by_cases h0 : k0 = k2
    · subst h0
      by_cases hk : k0 = k <;> simp [setEntry, getEntry, hk]
    · by_cases hk0 : k0 = k
      · subst hk0
        have hk2 : k2 ≠ k0 := fun h => h0 h.symm
        simp [setEntry, getEntry, h0, hk2]
      · by_cases hk2 : k2 = k
        · subst hk2
          simp [setEntry, getEntry, h0, hk0, ih]
        · simp [setEntry, getEntry, h0, hk0, hk2, ih]

theorem getEntry_setEntry_self (es : List (Str × Option GoMap)) (k : Str) (v : Option GoMap) :
    getEntry (setEntry es k v) k = some v := by
  simp [getEntry_setEntry]

/-- C7: CreateSecret reads the data sub-path first and fails with the
already-exists error whenever any object is found there (without
issuing a write); consequently a CreateSecret immediately followed by a
CreateSecret of the same path never succeeds, for any data and
metadata; and when the initial read finds nothing it writes the data
wrapped under the "data" field to the data sub-path and then the
metadata wrapped under the "custom_metadata" field to the metadata
sub-path, in that order, reporting whichever write failed. -/
theorem claim_c7_create_exists_and_order :
    (∀ (c : VaultClient) (s : Secret) (dp : Str),
      secretDataPath c.mounts s.path = .ok dp →
      c.readFails dp = false →
      ∀ d0, getEntry c.entries dp = some d0 →
      createSecret c s =
        (.err (.alreadyExists s.path), { c with log := c.log ++ [.read dp] })) ∧
    (∀ (c : VaultClient) (p : Str) (d d2 : GoMap) (m m2 : List (Str × Str)),
      (createSecret ((createSecret c ⟨p, d, m⟩).2) ⟨p, d2, m2⟩).1 ≠ .ok ()) ∧
    (∀ (c : VaultClient) (s : Secret) (dp mp : Str),
      secretDataPath c.mounts s.path = .ok dp →
      secretMetadataPath c.mounts s.path = .ok mp →
      c.readFails dp = false →
      getEntry c.entries dp = none →
      (c.writeFails dp = true →
        createSecret c s = (.err (.wrap .unableWriteData (.transport dp)),
          { c with log := c.log ++ [.read dp, .write dp [(strOf "data", .vMap s.data)]] })) ∧
      (c.writeFails dp = false → c.writeFails mp = true →
        createSecret c s = (.err (.wrap .unableWriteMetadata (.transport mp)),
          { c with
            entries := setEntry c.entries dp (some [(strOf "data", .vMap s.data)]),
            log := c.log ++ [.read dp, .write dp [(strOf "data", .vMap s.data)],
                             .write mp [(strOf "custom_metadata", strMapVal s.metadata)]] })) ∧
      (c.writeFails dp = false → c.writeFails mp = false →
        createSecret c s = (.ok (),
          { c with
            entries := setEntry (setEntry c.entries dp (some [(strOf "data", .vMap s.data)])) mp
              (some [(strOf "custom_metadata", strMapVal s.metadata)]),
            log := c.log ++ [.read dp, .write dp [(strOf "data", .vMap s.data)],
                             .write mp [(strOf "custom_metadata", strMapVal s.metadata)]] }))) := by
  refine ⟨?_, ?_, ?_⟩
  · intro c s dp hdp hrf d0 hge
    simp [createSecret, hdp, logicalRead, hrf, hge]
  · intro c p d d2 m m2
    cases hdp : secretDataPath c.mounts p with
    | err e => simp [createSecret, hdp]
    | panic r => simp [createSecret, hdp]
    | ok dp =>
      by_cases hrf : c.readFails dp
      · simp [createSecret, hdp, logicalRead, hrf]
      · cases hge : getEntry c.entries dp with
        | some d0 => simp [createSecret, hdp, logicalRead, hrf, hge]
        | none =>
          cases hmp : secretMetadataPath c.mounts p with
          | err e => simp [createSecret, hdp, hmp, logicalRead, hrf, hge]
          | panic r => simp [createSecret, hdp, hmp, logicalRead, hrf, hge]
          | ok mp =>
            by_cases hwd : c.writeFails dp
            · simp [createSecret, hdp, hmp, logicalRead, logicalWrite, hrf, hge, hwd]
            · by_cases hwm : c.writeFails mp
              · simp [createSecret, hdp, hmp, logicalRead, logicalWrite, hrf, hge, hwd, hwm,
                  getEntry_setEntry_self]
              · by_cases hmpdp : mp = dp
                · subst hmpdp
                  simp [createSecret, hdp, hmp, logicalRead, logicalWrite, hrf, hge, hwd,
                    getEntry_setEntry_self, getEntry_setEntry]
                · simp [createSecret, hdp, hmp, logicalRead, logicalWrite, hrf, hge, hwd, hwm,
                    getEntry_setEntry, hmpdp]
  · intro c s dp mp hdp hmp hrf hge
    refine ⟨?_, ?_, ?_⟩
    · intro hwd
      simp [createSecret, hdp, hmp, logicalRead, logicalWrite, hrf, hge, hwd]
    · intro hwd hwm
      simp [createSecret, hdp, hmp, logicalRead, logicalWrite, hrf, hge, hwd, hwm,
        List.append_assoc]
    · intro hwd hwm
      simp [createSecret, hdp, hmp, logicalRead, logicalWrite, hrf, hge, hwd, hwm,
        List.append_assoc]

/-- C7 witness: on the concrete store, a create against an occupied
data sub-path fails with already-exists; a double create of the same
fresh path never succeeds; and a create of a fresh path performs the
read and the two wrapped writes in order. -/
theorem claim_c7_create_exists_and_order_witness :
    createSecret clientDeletedTs ⟨strOf "secret/foo", [], []⟩ =
      (.err (.alreadyExists (strOf "secret/foo")),
       { clientDeletedTs with log := clientDeletedTs.log ++ [.read (strOf "secret/data/foo")] }) ∧
    (createSecret
        ((createSecret clientEmpty
          ⟨strOf "secret/foo", [(strOf "secret", .vStr (strOf "QUJD"))], []⟩).2)
        ⟨strOf "secret/foo", [], []⟩).1 ≠ .ok () ∧
    createSecret clientEmpty
        ⟨strOf "secret/foo", [(strOf "secret", .vStr (strOf "QUJD"))],
         [(strOf "owner", strOf "t")]⟩ =
      (.ok (),
       { clientEmpty with
         entries := setEntry (setEntry clientEmpty.entries (strOf "secret/data/foo")
             (some [(strOf "data", .vMap [(strOf "secret", .vStr (strOf "QUJD"))])]))
           (strOf "secret/metadata/foo")
           (some [(strOf "custom_metadata", strMapVal [(strOf "owner", strOf "t")])]),
         log := clientEmpty.log ++
           [.read (strOf "secret/data/foo"),
            .write (strOf "secret/data/foo")
              [(strOf "data", .vMap [(strOf "secret", .vStr (strOf "QUJD"))])],
            .write (strOf "secret/metadata/foo")
              [(strOf "custom_metadata", strMapVal [(strOf "owner", strOf "t")])]] }) := by
  refine ⟨?_, ?_, ?_⟩
  · exact claim_c7_create_exists_and_order.1 clientDeletedTs _ (strOf "secret/data/foo")
      rfl rfl _ rfl
  · exact claim_c7_create_exists_and_order.2.1 clientEmpty (strOf "secret/foo") _ _ _ _
  · exact (claim_c7_create_exists_and_order.2.2 clientEmpty
      ⟨strOf "secret/foo", [(strOf "secret", .vStr (strOf "QUJD"))],
       [(strOf "owner", strOf "t")]⟩
      (strOf "secret/data/foo") (strOf "secret/metadata/foo") rfl rfl rfl rfl).2.2 rfl rfl

theorem logicalRead_mounts (c : VaultClient) (p : Str) :
    ((logicalRead c p).2).mounts = c.mounts := by
  unfold logicalRead
  split <;> rfl

theorem logicalWrite_mounts (c : VaultClient) (p : Str) (v : GoMap) :
    ((logicalWrite c p v).2).mounts = c.mounts := by
  unfold logicalWrite
  split <;> rfl

theorem updateSecretMetadata_preserves (c : VaultClient) (p : Str) (m : List (Str × Str)) :
    ((updateSecretMetadata c p m).2).mounts = c.mounts := by
  unfold updateSecretMetadata
  cases hres : secretMetadataPath c.mounts p with
  | err e => rfl
  | panic r => rfl
  | ok mp =>
    dsimp only
    rcases hr : logicalRead c mp with ⟨r1, c1⟩
    have hc1 : c1.mounts = c.mounts := by
      have h := logicalRead_mounts c mp
      rw [hr] at h
      exact h
    cases r1 with
    | err e => exact hc1
    | panic r => exact hc1
    | ok s =>
      cases s with
      | none => exact hc1
      | some md =>
        cases hg : goIndexOpt md (strOf "custom_metadata") with
        | vNull => dsimp only; rw [hg]; exact hc1
        | vStr s2 =>
          dsimp only
          rw [hg]
          rcases hw : logicalWrite c1 mp
            [(strOf "custom_metadata", strMapVal (copyStrMap m))] with ⟨r2, c2⟩
          have hc2 : c2.mounts = c1.mounts := by
            have h := logicalWrite_mounts c1 mp [(strOf "custom_metadata", strMapVal (copyStrMap m))]
            rw [hw] at h
            exact h
          cases r2 <;> exact hc2.trans hc1
        | vBool b =>
          dsimp only
          rw [hg]
          rcases hw : logicalWrite c1 mp
            [(strOf "custom_metadata", strMapVal (copyStrMap m))] with ⟨r2, c2⟩
          have hc2 : c2.mounts = c1.mounts := by
            have h := logicalWrite_mounts c1 mp [(strOf "custom_metadata", strMapVal (copyStrMap m))]
            rw [hw] at h
            exact h
          cases r2 <;> exact hc2.trans hc1
        | vInt n =>
          dsimp only
          rw [hg]
          rcases hw : logicalWrite c1 mp
            [(strOf "custom_metadata", strMapVal (copyStrMap m))] with ⟨r2, c2⟩
          have hc2 : c2.mounts = c1.mounts := by
            have h := logicalWrite_mounts c1 mp [(strOf "custom_metadata", strMapVal (copyStrMap m))]
            rw [hw] at h
            exact h
          cases r2 <;> exact hc2.trans hc1
        | vMap mm =>
          dsimp only
          rw [hg]
          rcases hw : logicalWrite c1 mp
            [(strOf "custom_metadata", strMapVal (copyStrMap m))] with ⟨r2, c2⟩
          have hc2 : c2.mounts = c1.mounts := by
            have h := logicalWrite_mounts c1 mp [(strOf "custom_metadata", strMapVal (copyStrMap m))]
            rw [hw] at h
            exact h
          cases r2 <;> exact hc2.trans hc1

/-- C8: UpdateSecretMetadata fails with the missing-metadata error when
the existing metadata object has no custom-metadata field (issuing no
write); otherwise it writes exactly the supplied mapping wrapped under
custom_metadata as a full replacement, independent of the prior
metadata content; consequently after two successive successful updates
the stored metadata object holds exactly the second mapping, and no
key of the first survives unless re-supplied in the second. -/
theorem claim_c8_update_metadata_full_replace :
    (∀ (c : VaultClient) (p : Str) (meta : List (Str × Str)) (mp : Str) (d : Option GoMap),
      secretMetadataPath c.mounts p = .ok mp →
      c.readFails mp = false →
      getEntry c.entries mp = some d →
      (goIndexOpt d (strOf "custom_metadata") = .vNull →
        updateSecretMetadata c p meta =
          (.err .missingCustomMetadata, { c with log := c.log ++ [.read mp] })) ∧
      (goIndexOpt d (strOf "custom_metadata") ≠ .vNull → c.writeFails mp = false →
        updateSecretMetadata c p meta =
          (.ok (), { c with
            entries := setEntry c.entries mp
              (some [(strOf "custom_metadata", strMapVal (copyStrMap meta))]),
            log := c.log ++ [.read mp,
              .write mp [(strOf "custom_metadata", strMapVal (copyStrMap meta))]] }))) ∧
    (∀ (c c1 c2 : VaultClient) (p : Str) (m1 m2 : List (Str × Str)) (mp : Str),
      secretMetadataPath c.mounts p = .ok mp →
      updateSecretMetadata c p m1 = (.ok (), c1) →
      updateSecretMetadata c1 p m2 = (.ok (), c2) →
      getEntry c2.entries mp =
        some (some [(strOf "custom_metadata", strMapVal (copyStrMap m2))])) := by
  constructor
  · intro c p meta mp d hres hrf hge
    constructor
    · intro hnull
      simp [updateSecretMetadata, hres, logicalRead, hrf, hge, hnull]
    · intro hnn hwf
      cases hg : goIndexOpt d (strOf "custom_metadata") with
      | vNull => exact absurd hg hnn
      | vStr s2 =>
        simp [updateSecretMetadata, hres, logicalRead, logicalWrite, hrf, hge, hg, hwf,
          List.append_assoc]
      | vBool b =>
        simp [updateSecretMetadata, hres, logicalRead, logicalWrite, hrf, hge, hg, hwf,
          List.append_assoc]
      | vInt n =>
        simp [updateSecretMetadata, hres, logicalRead, logicalWrite, hrf, hge, hg, hwf,
          List.append_assoc]
      | vMap mm =>
        simp [updateSecretMetadata, hres, logicalRead, logicalWrite, hrf, hge, hg, hwf,
          List.append_assoc]
  · intro c c1 c2 p m1 m2 mp hres h1 h2
    have hm : c1.mounts = c.mounts := by
      have h := updateSecretMetadata_preserves c p m1
      rw [h1] at h
      exact h
    have hres1 : secretMetadataPath c1.mounts p = .ok mp := by rw [hm]; exact hres
    unfold updateSecretMetadata at h2
    rw [hres1] at h2
    dsimp only at h2
    rcases hr : logicalRead c1 mp with ⟨r1, c1b⟩
    rw [hr] at h2
    cases r1 with
    | err e => injection h2 with h2a h2b; cases h2a
    | panic r => injection h2 with h2a h2b; cases h2a
    | ok s =>
      cases s with
      | none => injection h2 with h2a h2b; cases h2a
      | some md =>
        dsimp only at h2
        cases hg : goIndexOpt md (strOf "custom_metadata") with
        | vNull =>
          rw [hg] at h2
          injection h2 with h2a h2b
          cases h2a
        | vStr s2 =>
          rw [hg] at h2
          rcases hw : logicalWrite c1b mp
            [(strOf "custom_metadata", strMapVal (copyStrMap m2))] with ⟨r2, c2b⟩
          rw [hw] at h2
          cases r2 with
          | err e => injection h2 with h2a h2b; cases h2a
          | panic r => injection h2 with h2a h2b; cases h2a
          | ok u =>
            injection h2 with h2a h2b
            by_cases hwf : c1b.writeFails mp
            · simp only [logicalWrite, hwf, if_true] at hw
              injection hw with hwa hwb
              cases hwa
            · simp only [logicalWrite, hwf, if_false] at hw
              injection hw with hwa hwb
              rw [← h2b, ← hwb]
              exact getEntry_setEntry_self _ _ _
        | vBool b =>
          rw [hg] at h2
          rcases hw : logicalWrite c1b mp
            [(strOf "custom_metadata", strMapVal (copyStrMap m2))] with ⟨r2, c2b⟩
          rw [hw] at h2
          cases r2 with
          | err e => injection h2 with h2a h2b; cases h2a
          | panic r => injection h2 with h2a h2b; cases h2a
          | ok u =>
            injection h2 with h2a h2b
            by_cases hwf : c1b.writeFails mp
            · simp only [logicalWrite, hwf, if_true] at hw
              injection hw with hwa hwb
              cases hwa
            · simp only [logicalWrite, hwf, if_false] at hw
              injection hw with hwa hwb
              rw [← h2b, ← hwb]
              exact getEntry_setEntry_self _ _ _
        | vInt n =>
          rw [hg] at h2
          rcases hw : logicalWrite c1b mp
            [(strOf "custom_metadata", strMapVal (copyStrMap m2))] with ⟨r2, c2b⟩
          rw [hw] at h2
          cases r2 with
          | err e => injection h2 with h2a h2b; cases h2a
          | panic r => injection h2 with h2a h2b; cases h2a
          | ok u =>
            injection h2 with h2a h2b
            by_cases hwf : c1b.writeFails mp
            · simp only [logicalWrite, hwf, if_true] at hw
              injection hw with hwa hwb
              cases hwa
            · simp only [logicalWrite, hwf, if_false] at hw
              injection hw with hwa hwb
              rw [← h2b, ← hwb]
              exact getEntry_setEntry_self _ _ _
        | vMap mm =>
          rw [hg] at h2
          rcases hw : logicalWrite c1b mp
            [(strOf "custom_metadata", strMapVal (copyStrMap m2))] with ⟨r2, c2b⟩
          rw [hw] at h2
          cases r2 with
          | err e => injection h2 with h2a h2b; cases h2a
          | panic r => injection h2 with h2a h2b; cases h2a
          | ok u =>
            injection h2 with h2a h2b
            by_cases hwf : c1b.writeFails mp
            · simp only [logicalWrite, hwf, if_true] at hw
              injection hw with hwa hwb
              cases hwa
            · simp only [logicalWrite, hwf, if_false] at hw
              injection hw with hwa hwb
              rw [← h2b, ← hwb]
              exact getEntry_setEntry_self _ _ _

/-- C8 witness: on a metadata object without the custom-metadata field
the update fails with the missing-metadata error; and after two
successive updates on the concrete client the stored metadata object
holds exactly the second mapping. -/
theorem claim_c8_update_metadata_full_replace_witness :
    updateSecretMetadata clientVersions (strOf "secret/foo") [(strOf "a", strOf "1")] =
      (.err .missingCustomMetadata,
       { clientVersions with
         log := clientVersions.log ++ [.read (strOf "secret/metadata/foo")] }) ∧
    getEntry ((updateSecretMetadata
        ((updateSecretMetadata clientMeta (strOf "secret/foo") [(strOf "a", strOf "1")]).2)
        (strOf "secret/foo") [(strOf "b", strOf "2")]).2).entries (strOf "secret/metadata/foo") =
      some (some [(strOf "custom_metadata",
        strMapVal (copyStrMap [(strOf "b", strOf "2")]))]) := by
  constructor
  · exact ((claim_c8_update_metadata_full_replace.1 clientVersions (strOf "secret/foo")
      [(strOf "a", strOf "1")] (strOf "secret/metadata/foo") _ rfl rfl rfl).1 rfl)
  · exact claim_c8_update_metadata_full_replace.2 clientMeta _ _ (strOf "secret/foo")
      [(strOf "a", strOf "1")] [(strOf "b", strOf "2")] (strOf "secret/metadata/foo") rfl rfl rfl

theorem deleteCalls_append (a b : List Call) :
    deleteCalls (a ++ b) = deleteCalls a ++ deleteCalls b := by
  induction a with
  | nil => rfl
  | cons hd tl ih => cases hd <;> simp [deleteCalls, ih]

/-- C9: DeleteSecret fails with the no-metadata error when the
metadata-sub-path read returns nothing, issuing no delete; otherwise,
for every successfully decoded version map and parsable version keys,
it issues exactly one store-level delete call, addressed to the
metadata sub-path; the enumerated version list is not part of the
delete call (a delete call carries only a path) and does not affect
which delete call is issued — the conclusion is identical for every
version map. -/
theorem claim_c9_delete_single_call :
    ∀ (c : VaultClient) (p mp : Str),
      secretMetadataPath c.mounts p = .ok mp →
      c.readFails mp = false →
      (getEntry c.entries mp = none →
        deleteSecret c p = (.err .noMetadata, { c with log := c.log ++ [.read mp] })) ∧
      (∀ d meta vs, getEntry c.entries mp = some d →
        decodeSecretV2Metadata d = some meta →
        collectVersionsToDelete meta.versions = .ok vs →
        ((deleteSecret c p).2).log = c.log ++ [.read mp, .del mp] ∧
        deleteCalls ((deleteSecret c p).2).log = deleteCalls c.log ++ [mp]) := by
  intro c p mp hres hrf
  constructor
  · intro hge
    simp [deleteSecret, hres, logicalRead, hrf, hge]
  · intro d meta vs hge hdec hcol
    have hlog : ((deleteSecret c p).2).log = c.log ++ [.read mp, .del mp] := by
      by_cases hdf : c.deleteFails mp <;>
        simp [deleteSecret, hres, logicalRead, logicalDelete, hrf, hge, hdec, hcol, hdf,
          List.append_assoc]
    refine ⟨hlog, ?_⟩
    rw [hlog, deleteCalls_append]
    rfl

/-- C9 witness: on the empty store the delete fails with no-metadata
and logs only the read; on the concrete two-version store exactly one
delete call is issued, addressed to the metadata sub-path. -/
theorem claim_c9_delete_single_call_witness :
    deleteSecret clientEmpty (strOf "secret/foo") =
      (.err .noMetadata,
       { clientEmpty with log := clientEmpty.log ++ [.read (strOf "secret/metadata/foo")] }) ∧
    ((deleteSecret clientVersions (strOf "secret/foo")).2).log =
      clientVersions.log ++
        [.read (strOf "secret/metadata/foo"), .del (strOf "secret/metadata/foo")] := by
  constructor
  · exact (claim_c9_delete_single_call clientEmpty (strOf "secret/foo")
      (strOf "secret/metadata/foo") rfl rfl).1 rfl
  · exact ((claim_c9_delete_single_call clientVersions (strOf "secret/foo")
      (strOf "secret/metadata/foo") rfl rfl).2 _ _ _ rfl rfl rfl).1

theorem collectVersionsToDelete_err_of_bad :
    ∀ (l : List (Str × VersionRec)) (k : Str) (v : VersionRec),
      (k, v) ∈ l → v.deletionTime = [] → goAtoi k = none →
      ∃ k2, collectVersionsToDelete l = .error k2 := by
  intro l
  induction l with
  | nil => intro k v h _ _; cases h
  | cons hd tl ih =>
    intro k v hmem hdt hatoi
    obtain ⟨k0, v0⟩ := hd
    rcases List.mem_cons.mp hmem with heq | hmem2
    · cases heq
      exact ⟨k, by simp [collectVersionsToDelete, hdt, hatoi]⟩
    · by_cases hdt0 : v0.deletionTime = []
      · cases hat0 : goAtoi k0 with
        | none => exact ⟨k0, by simp [collectVersionsToDelete, hdt0, hat0]⟩
        | some n =>
          obtain ⟨k2, hk2⟩ := ih k v hmem2 hdt hatoi
          exact ⟨k2, by simp [collectVersionsToDelete, hdt0, hat0, hk2]⟩
      · obtain ⟨k2, hk2⟩ := ih k v hmem2 hdt hatoi
        exact ⟨k2, by simp [collectVersionsToDelete, hdt0, hk2]⟩

/-- C10: for every path whose metadata decodes with a versions map
containing a key that is not a decimal integer and whose entry has an
empty deletion time, DeleteSecret returns the version-parse error
before issuing any delete call: the final client keeps every store
entry unchanged and logs only the metadata read. -/
theorem claim_c10_bad_version_key :
    ∀ (c : VaultClient) (p mp : Str) (d : Option GoMap) (meta : MetaRec)
      (k : Str) (v : VersionRec),
      secretMetadataPath c.mounts p = .ok mp →
      c.readFails mp = false →
      getEntry c.entries mp = some d →
      decodeSecretV2Metadata d = some meta →
      (k, v) ∈ meta.versions →
      v.deletionTime = [] →
      goAtoi k = none →
      ∃ k2, deleteSecret c p =
        (.err (.wrap .unableReadVersion (.badVersionKey k2)),
         { c with log := c.log ++ [.read mp] }) := by
  intro c p mp d meta k v hres hrf hge hdec hmem hdt hatoi
  obtain ⟨k2, hk2⟩ := collectVersionsToDelete_err_of_bad meta.versions k v hmem hdt hatoi
  exact ⟨k2, by simp [deleteSecret, hres, logicalRead, hrf, hge, hdec, hk2]⟩

/-- C10 witness: on the concrete store whose version map has the
non-decimal key "abc" with an empty deletion time, DeleteSecret errors
and only the metadata read is logged, leaving the entries unchanged. -/
theorem claim_c10_bad_version_key_witness :
    ∃ k2, deleteSecret clientBadVersion (strOf "secret/foo") =
      (.err (.wrap .unableReadVersion (.badVersionKey k2)),
       { clientBadVersion with
         log := clientBadVersion.log ++ [.read (strOf "secret/metadata/foo")] }) :=
  claim_c10_bad_version_key clientBadVersion (strOf "secret/foo")
    (strOf "secret/metadata/foo") _ _ (strOf "abc") ⟨[], false⟩
    rfl rfl rfl rfl (by decide) rfl rfl
